import Mathlib

/-!
Verification development for the MCP connection-lifecycle subsystem of the
agentic-framework repository: `src/agentic_framework/mcp/provider.py`
(`MCPProvider.tool_session`) and `src/agentic_framework/mcp/config.py`
(`DEFAULT_MCP_SERVERS`, `_resolve_server_config`, `get_mcp_servers_config`).

The provider model embeds the sequential acquisition loop of `tool_session`
together with the exception semantics of `contextlib.AsyncExitStack`
(callbacks run in LIFO order; a callback that raises replaces the pending
exception; unwinding continues through the remaining callbacks).  The config
model embeds catalog resolution at the level of dictionary contents; a second,
heap-based model with explicit object identity is used where aliasing matters.
-/

namespace AgenticFramework

/-- Exceptions observable at the `tool_session` boundary.
`mcpConn` models `MCPConnectionError(server_name, cause)` from provider.py;
`timeoutErr` models `TimeoutError`; `runtimeErr` models any other exception. -/
inductive Exc where
  | timeoutErr (msg : String)
  | runtimeErr (msg : String)
  | mcpConn (serverName : String) (cause : Exc)
  deriving DecidableEq, Repr

/-- Outcome of one server's open-and-load attempt: the body of the
`asyncio.timeout(CONN_TIMEOUT)` block in `tool_session`, as observed by its
`except` clauses.  The session is entered onto the `AsyncExitStack` by
`stack.enter_async_context(self._client.session(name))`; `load_mcp_tools`
runs afterwards, so a load failure leaves the session on the stack. -/
inductive OpenOutcome where
  | ok (tools : List String)
  | openTimeout
  | openErr (msg : String)
  | loadTimeout
  | loadErr (msg : String)
  deriving DecidableEq, Repr

/-- Behaviour of one session's close (`__aexit__` during stack unwind). -/
inductive CloseOutcome where
  | ok
  | fails (msg : String)
  deriving DecidableEq, Repr

/-- One configured server, with the abstract behaviour of its open attempt
and of its eventual close. -/
structure Server where
  name : String
  attempt : OpenOutcome
  close : CloseOutcome
  deriving DecidableEq, Repr

/-- `CONN_TIMEOUT = 15` in `tool_session`. -/
def CONN_TIMEOUT : Nat := 15

/-- Message of the fresh `TimeoutError` built in the timeout `except` branch:
`f"Connection timed out after {CONN_TIMEOUT}s"`. -/
def timeoutMsg : String := "Connection timed out after 15s"

/-- Did the attempt leave a session on the exit stack? -/
def sessionEntered : OpenOutcome → Bool
  | .ok _ => true
  | .openTimeout => false
  | .openErr _ => false
  | .loadTimeout => true
  | .loadErr _ => true

/-- Did the attempt succeed (tools loaded)? -/
def isOk : OpenOutcome → Bool
  | .ok _ => true
  | _ => false

/-- The `cause` wrapped into `MCPConnectionError` for a failing attempt:
the timeout branch builds a fresh `TimeoutError("Connection timed out after 15s")`,
the generic branch passes the raised exception through. -/
def failureCause : OpenOutcome → Option Exc
  | .ok _ => none
  | .openTimeout => some (.timeoutErr timeoutMsg)
  | .loadTimeout => some (.timeoutErr timeoutMsg)
  | .openErr m => some (.runtimeErr m)
  | .loadErr m => some (.runtimeErr m)

/-- How the acquisition loop ends early: a raised exception (fail-fast
`MCPConnectionError`) or task cancellation (`CancelledError` is a
`BaseException`, caught by neither `except` clause). -/
inductive Abort where
  | raised (e : Exc)
  | cancelled
  deriving DecidableEq, Repr

/-- Result of the `for name in self._config:` acquisition loop. -/
structure AcqRes where
  /-- Servers whose connection was attempted, in catalog order. -/
  attempted : List String
  /-- Sessions entered onto the `AsyncExitStack`, in entry order. -/
  opened : List Server
  /-- `all_tools` accumulated so far. -/
  tools : List String
  /-- `some` when the loop was exited early by an exception or cancellation. -/
  abort : Option Abort
  /-- Server names whose failure was logged at error level (non-fail-fast). -/
  loggedErrors : List String
  deriving DecidableEq, Repr

/-- The sequential acquisition loop of `tool_session`.  `cancelAt = some i`
models cancellation delivered at the suspension point just before the attempt
on the i-th server (0-based). -/
def acquireLoop (failFast : Bool) (cancelAt : Option Nat) : Nat → List Server → AcqRes
  | _, [] => ⟨[], [], [], none, []⟩
  | i, s :: rest =>
    if cancelAt = some i then ⟨[], [], [], some .cancelled, []⟩
    else
      match s.attempt with
      | .ok ts =>
        let r := acquireLoop failFast cancelAt (i + 1) rest
        ⟨s.name :: r.attempted, s :: r.opened, ts ++ r.tools, r.abort, r.loggedErrors⟩
      | .openTimeout =>
        if failFast then
          ⟨[s.name], [], [], some (.raised (.mcpConn s.name (.timeoutErr timeoutMsg))), []⟩
        else
          let r := acquireLoop failFast cancelAt (i + 1) rest
          ⟨s.name :: r.attempted, r.opened, r.tools, r.abort, s.name :: r.loggedErrors⟩
      | .loadTimeout =>
        if failFast then
          ⟨[s.name], [s], [], some (.raised (.mcpConn s.name (.timeoutErr timeoutMsg))), []⟩
        else
          let r := acquireLoop failFast cancelAt (i + 1) rest
          ⟨s.name :: r.attempted, s :: r.opened, r.tools, r.abort, s.name :: r.loggedErrors⟩
      | .openErr m =>
        if failFast then
          ⟨[s.name], [], [], some (.raised (.mcpConn s.name (.runtimeErr m))), []⟩
        else
          let r := acquireLoop failFast cancelAt (i + 1) rest
          ⟨s.name :: r.attempted, r.opened, r.tools, r.abort, s.name :: r.loggedErrors⟩
      | .loadErr m =>
        if failFast then
          ⟨[s.name], [s], [], some (.raised (.mcpConn s.name (.runtimeErr m))), []⟩
        else
          let r := acquireLoop failFast cancelAt (i + 1) rest
          ⟨s.name :: r.attempted, s :: r.opened, r.tools, r.abort, s.name :: r.loggedErrors⟩

/-- How the caller's block between scope entry and scope exit terminates. -/
inductive BodyExit where
  | normal
  | raises (msg : String)
  | cancelled
  deriving DecidableEq, Repr

/-- What the whole `async with provider.tool_session(...)` statement does
from the caller's point of view. -/
inductive ScopeOutcome where
  | ok
  | raised (e : Exc)
  | cancelled
  deriving DecidableEq, Repr

/-- Observable trace of one `tool_session` scope. -/
structure ScopeResult where
  attempted : List String
  /-- `some tools` iff control reached the `yield all_tools` statement. -/
  yieldedTools : Option (List String)
  /-- Session names closed during stack unwind, in close order (LIFO). -/
  closed : List String
  loggedErrors : List String
  outcome : ScopeOutcome
  deriving DecidableEq, Repr

/-- `AsyncExitStack.__aexit__`: pop callbacks LIFO (the input list is already
reversed into close order); every callback runs; a callback that raises
replaces the pending exception, and a later-processed raiser wins.
Returns the names closed, in close order, and the surviving close exception. -/
def closeSeq : List Server → List String × Option Exc
  | [] => ([], none)
  | s :: rest =>
    let p := closeSeq rest
    (s.name :: p.1,
      match p.2 with
      | some e => some e
      | none =>
        match s.close with
        | .ok => none
        | .fails m => some (.runtimeErr m))

def abortOutcome : Abort → ScopeOutcome
  | .raised e => .raised e
  | .cancelled => .cancelled

def bodyOutcome : BodyExit → ScopeOutcome
  | .normal => .ok
  | .raises m => .raised (.runtimeErr m)
  | .cancelled => .cancelled

/-- A close-time exception propagates out of `AsyncExitStack.__aexit__`
(the previous pending exception is left on `__context__`); `tool_session`
has no handler around the stack exit, so it replaces the pending outcome. -/
def finalOutcome (closeExc : Option Exc) (pending : ScopeOutcome) : ScopeOutcome :=
  match closeExc with
  | some e => .raised e
  | none => pending

/-- `MCPProvider.tool_session(fail_fast)` run to completion on an abstract
catalog: acquire sequentially, yield `all_tools` to the body unless the
acquisition aborted, then unwind the exit stack (closing the entered sessions
in LIFO order) on every exit path. -/
def tool_session (servers : List Server) (failFast : Bool) (cancelAt : Option Nat)
    (body : List String → BodyExit) : ScopeResult :=
  let a := acquireLoop failFast cancelAt 0 servers
  let c := closeSeq a.opened.reverse
  let pending :=
    match a.abort with
    | some ab => abortOutcome ab
    | none => bodyOutcome (body a.tools)
  { attempted := a.attempted
    yieldedTools := match a.abort with | some _ => none | none => some a.tools
    closed := c.1
    loggedErrors := a.loggedErrors
    outcome := finalOutcome c.2 pending }

/-- Tools contributed by the servers whose attempt succeeded, in catalog order. -/
def successTools : List Server → List String
  | [] => []
  | s :: rest =>
    (match s.attempt with | .ok ts => ts | _ => []) ++ successTools rest

lemma closeSeq_names (l : List Server) : (closeSeq l).1 = l.map Server.name := by
  induction l with
  | nil => rfl
  | cons s rest ih => simp [closeSeq, ih]

lemma closeSeq_all_ok (l : List Server) (h : ∀ s ∈ l, s.close = CloseOutcome.ok) :
    (closeSeq l).2 = none := by
  induction l with
  | nil => rfl
  | cons s rest ih =>
    have hs := h s (List.mem_cons_self s rest)
    simp [closeSeq, hs, ih fun t ht => h t (List.mem_cons_of_mem s ht)]

/-- C1 — On every exit path of a `tool_session` scope (normal completion of
the caller's block, an exception from the block, cancellation mid-block, a
fail-fast abort, or cancellation during acquisition), the sessions closed
during stack unwind are exactly the sessions that were entered onto the exit
stack, each closed exactly once, in LIFO order. -/
theorem tool_session_cleanup (servers : List Server) (failFast : Bool)
    (cancelAt : Option Nat) (body : List String → BodyExit) :
    (tool_session servers failFast cancelAt body).closed
      = ((acquireLoop failFast cancelAt 0 servers).opened.map Server.name).reverse ∧
    ∀ n, (tool_session servers failFast cancelAt body).closed.count n
      = ((acquireLoop failFast cancelAt 0 servers).opened.map Server.name).count n := by
  refine ⟨?_, ?_⟩
  · simp [tool_session, closeSeq_names, List.map_reverse]
  · intro n
    simp [tool_session, closeSeq_names, List.map_reverse, List.count_reverse]

lemma acquireLoop_no_fail_fast (servers : List Server) (i : Nat) :
    acquireLoop false none i servers =
      ⟨servers.map Server.name,
       servers.filter (fun s => sessionEntered s.attempt),
       successTools servers,
       none,
       (servers.filter (fun s => !(isOk s.attempt))).map Server.name⟩ := by
  induction servers generalizing i with
  | nil => rfl
  | cons s rest ih =>
    cases ha : s.attempt <;>
      simp [acquireLoop, ha, ih, successTools, sessionEntered, isOk]

/-- C3 — With `fail_fast = false`, every server is attempted in catalog order,
each failing server is skipped with its failure logged at error level rather
than raised, and the scope always reaches its `yield`, handing the caller
exactly the concatenation of the tools of the servers that succeeded (the
empty list when no server succeeded). -/
theorem tool_session_graceful (servers : List Server) (body : List String → BodyExit) :
    (tool_session servers false none body).yieldedTools = some (successTools servers) ∧
    (tool_session servers false none body).attempted = servers.map Server.name ∧
    (tool_session servers false none body).loggedErrors
      = (servers.filter (fun s => !(isOk s.attempt))).map Server.name := by
  refine ⟨?_, ?_, ?_⟩ <;> simp [tool_session, acquireLoop_no_fail_fast]

lemma isOk_iff (o : OpenOutcome) : isOk o = true ↔ ∃ ts, o = OpenOutcome.ok ts := by
  cases o <;> simp [isOk]

lemma acquireLoop_ok_leading (pre rest : List Server) (i : Nat)
    (hpre : ∀ s ∈ pre, isOk s.attempt = true) :
    acquireLoop true none i (pre ++ rest) =
      ⟨pre.map Server.name ++ (acquireLoop true none (i + pre.length) rest).attempted,
       pre ++ (acquireLoop true none (i + pre.length) rest).opened,
       successTools pre ++ (acquireLoop true none (i + pre.length) rest).tools,
       (acquireLoop true none (i + pre.length) rest).abort,
       (acquireLoop true none (i + pre.length) rest).loggedErrors⟩ := by
  induction pre generalizing i with
  | nil => simp [successTools]
  | cons s pre ih =>
    obtain ⟨ts, hts⟩ := (isOk_iff _).mp (hpre s (List.mem_cons_self s pre))
    have harith : i + 1 + pre.length = i + (pre.length + 1) := by omega
    simp [acquireLoop, hts, successTools,
      ih (i + 1) fun t ht => hpre t (List.mem_cons_of_mem s ht), harith]

lemma acquireLoop_fail_head (k : Server) (post : List Server) (i : Nat) (c : Exc)
    (hk : failureCause k.attempt = some c) :
    acquireLoop true none i (k :: post) =
      ⟨[k.name], if sessionEntered k.attempt then [k] else [], [],
       some (.raised (.mcpConn k.name c)), []⟩ := by
  cases ha : k.attempt <;> simp [failureCause, ha] at hk <;>
    simp [acquireLoop, ha, ← hk, sessionEntered]

/-- Shared core for the fail-fast claims: with `fail_fast = true`, servers
before the first failing one all succeeding, and well-behaved closes, the
scope raises `MCPConnectionError` for the failing server with its cause,
yields nothing, never attempts the later servers, and closes exactly the
sessions entered so far in LIFO order. -/
lemma tool_session_fail_fast_core (pre post : List Server) (k : Server) (c : Exc)
    (body : List String → BodyExit)
    (hpre : ∀ s ∈ pre, isOk s.attempt = true)
    (hk : failureCause k.attempt = some c)
    (hclose : ∀ s ∈ pre, s.close = CloseOutcome.ok)
    (hck : k.close = CloseOutcome.ok) :
    (tool_session (pre ++ k :: post) true none body).outcome
        = ScopeOutcome.raised (.mcpConn k.name c) ∧
    (tool_session (pre ++ k :: post) true none body).yieldedTools = none ∧
    (tool_session (pre ++ k :: post) true none body).attempted
        = pre.map Server.name ++ [k.name] ∧
    (tool_session (pre ++ k :: post) true none body).closed
        = (pre.map Server.name
            ++ (if sessionEntered k.attempt then [k.name] else [])).reverse := by
  have hacq : acquireLoop true none 0 (pre ++ k :: post)
      = ⟨pre.map Server.name ++ [k.name],
         pre ++ (if sessionEntered k.attempt then [k] else []),
         successTools pre ++ [],
         some (.raised (.mcpConn k.name c)), []⟩ := by
    rw [acquireLoop_ok_leading pre (k :: post) 0 hpre,
        acquireLoop_fail_head k post (0 + pre.length) c hk]
  have hcl : ∀ s ∈ (pre ++ (if sessionEntered k.attempt then [k] else [])).reverse,
      s.close = CloseOutcome.ok := by
    intro s hs
    rw [List.mem_reverse] at hs
    rcases List.mem_append.mp hs with h | h
    · exact hclose s h
    · by_cases hb : sessionEntered k.attempt
      · simp [hb] at h
        exact h ▸ hck
      · simp [hb] at h
  have hnone : (closeSeq
      ((pre ++ (if sessionEntered k.attempt = true then [k] else [])).reverse)).2 = none :=
    closeSeq_all_ok _ hcl
  refine ⟨?_, ?_, ?_, ?_⟩
  · simp only [tool_session, hacq, hnone]
    simp [finalOutcome, abortOutcome]
  · simp [tool_session, hacq]
  · simp [tool_session, hacq]
  · simp only [tool_session, hacq]
    simp [closeSeq_names, List.map_reverse, apply_ite]

/-- C2 — With `fail_fast = true`, the first server that fails to open aborts
the acquisition: an `MCPConnectionError` naming that server and carrying the
underlying cause propagates to the caller, the sessions entered for the
preceding servers are closed (LIFO), the following servers are never
attempted, and no tool list is ever yielded to the caller. -/
theorem tool_session_fail_fast_abort (pre post : List Server) (k : Server) (c : Exc)
    (body : List String → BodyExit)
    (hpre : ∀ s ∈ pre, isOk s.attempt = true)
    (hk : failureCause k.attempt = some c)
    (hclose : ∀ s ∈ pre, s.close = CloseOutcome.ok)
    (hck : k.close = CloseOutcome.ok) :
    (tool_session (pre ++ k :: post) true none body).outcome
        = ScopeOutcome.raised (.mcpConn k.name c) ∧
    (tool_session (pre ++ k :: post) true none body).yieldedTools = none ∧
    (tool_session (pre ++ k :: post) true none body).attempted
        = pre.map Server.name ++ [k.name] ∧
    (tool_session (pre ++ k :: post) true none body).closed
        = (pre.map Server.name
            ++ (if sessionEntered k.attempt then [k.name] else [])).reverse :=
  tool_session_fail_fast_core pre post k c body hpre hk hclose hck

/-- Servers used by the concrete fail-fast witness. -/
def srvA : Server := ⟨"srv-a", .ok ["tool-a"], .ok⟩

def srvBad : Server := ⟨"srv-bad", .openErr "boom", .ok⟩

def srvC : Server := ⟨"srv-c", .ok ["tool-c"], .ok⟩

/-- Witness for C2 at a concrete three-server catalog whose second server
fails to open. -/
theorem tool_session_fail_fast_abort_witness :
    (tool_session [srvA, srvBad, srvC] true none (fun _ => BodyExit.normal)).outcome
        = ScopeOutcome.raised (.mcpConn "srv-bad" (.runtimeErr "boom")) ∧
    (tool_session [srvA, srvBad, srvC] true none (fun _ => BodyExit.normal)).yieldedTools
        = none ∧
    (tool_session [srvA, srvBad, srvC] true none (fun _ => BodyExit.normal)).attempted
        = ["srv-a", "srv-bad"] ∧
    (tool_session [srvA, srvBad, srvC] true none (fun _ => BodyExit.normal)).closed
        = ["srv-a"] := by
  have h := tool_session_fail_fast_abort [srvA] [srvC] srvBad (Exc.runtimeErr "boom")
      (fun _ => BodyExit.normal) (by decide) (by decide) (by decide) (by decide)
  exact ⟨h.1, h.2.1, h.2.2.1, h.2.2.2⟩

/-- C8 — An open attempt that exceeds the per-server connection timeout
(`asyncio.timeout(CONN_TIMEOUT)`, whether before or after the session was
entered) surfaces at the fail-fast API boundary as the same
`MCPConnectionError` used for every other connection failure, naming the
server, with a timeout-specific cause
(`TimeoutError("Connection timed out after 15s")`) distinguishable only via
the cause's message. -/
theorem tool_session_timeout_boundary (pre post : List Server) (k : Server)
    (body : List String → BodyExit)
    (hpre : ∀ s ∈ pre, isOk s.attempt = true)
    (hkt : k.attempt = OpenOutcome.openTimeout ∨ k.attempt = OpenOutcome.loadTimeout)
    (hclose : ∀ s ∈ pre, s.close = CloseOutcome.ok)
    (hck : k.close = CloseOutcome.ok) :
    (tool_session (pre ++ k :: post) true none body).outcome
        = ScopeOutcome.raised (.mcpConn k.name (.timeoutErr timeoutMsg)) := by
  have hc : failureCause k.attempt = some (.timeoutErr timeoutMsg) := by
    rcases hkt with h | h <;> simp [failureCause, h]
  exact (tool_session_fail_fast_core pre post k _ body hpre hc hclose hck).1

/-- A server whose open attempt exceeds the connection timeout. -/
def srvSlow : Server := ⟨"slow", .openTimeout, .ok⟩

/-- Witness for C8 at a concrete catalog whose second server times out. -/
theorem tool_session_timeout_boundary_witness :
    (tool_session [srvA, srvSlow] true none (fun _ => BodyExit.normal)).outcome
        = ScopeOutcome.raised
            (.mcpConn "slow" (.timeoutErr "Connection timed out after 15s")) :=
  tool_session_timeout_boundary [srvA] [] srvSlow (fun _ => BodyExit.normal)
    (by decide) (Or.inl rfl) (by decide) rfl

/-- A server whose session opens and loads fine but whose close raises. -/
def closeFailSrv : Server := ⟨"alpha", .ok ["tool-1"], .fails "HTTP 405 on DELETE"⟩

/-- The same server with a well-behaved close. -/
def closeOkSrv : Server := ⟨"alpha", .ok ["tool-1"], .ok⟩

/-- C4 — The code contradicts the claim: a failure raised while closing a
session at scope exit is NOT swallowed.  `AsyncExitStack.__aexit__` re-raises
a callback's exception and `tool_session` has no handler around the stack
exit (its `finally` only logs a debug line), so a close-time failure replaces
the scope's successful outcome at the caller. -/
theorem tool_session_close_failure_escalates :
    (tool_session [closeOkSrv] true none (fun _ => BodyExit.normal)).outcome
        = ScopeOutcome.ok ∧
    (tool_session [closeFailSrv] true none (fun _ => BodyExit.normal)).outcome
        = ScopeOutcome.raised (.runtimeErr "HTTP 405 on DELETE") :=
  ⟨rfl, rfl⟩

/-! ### Catalog resolution: `mcp/config.py`, contents-level model

Python dict values appearing in server descriptors are strings or nested
dicts; dicts are modelled as insertion-ordered association lists, matching
`d[k] = v` semantics (replace in place when the key exists, else append). -/

inductive Val where
  | str (s : String)
  | dict (d : List (String × Val))
  deriving Repr

abbrev Fields := List (String × Val)

abbrev Catalog := List (String × Fields)

/-- `os.environ`: `none` models an unset variable. -/
abbrev EnvMap := String → Option String

def assocGet {α : Type} (d : List (String × α)) (k : String) : Option α :=
  (d.find? (fun p => p.1 == k)).map (fun p => p.2)

def assocHas {α : Type} (d : List (String × α)) (k : String) : Bool :=
  d.any (fun p => p.1 == k)

/-- `d[k] = v` on an insertion-ordered dict. -/
def assocSet {α : Type} (d : List (String × α)) (k : String) (v : α) :
    List (String × α) :=
  if assocHas d k then d.map (fun p => if p.1 == k then (k, v) else p)
  else d ++ [(k, v)]

/-- `d.update(upd)`: apply the updates in iteration order. -/
def dictUpdate : Fields → Fields → Fields
  | d, [] => d
  | d, p :: rest => dictUpdate (assocSet d p.1 p.2) rest

/-- `os.environ.get(v)` filtered by Python truthiness (`if not key:` treats
the empty string like an unset variable). -/
def truthyEnv (env : EnvMap) (v : String) : Option String :=
  match env v with
  | some s => if s == "" then none else some s
  | none => none

/-- `s.rstrip("/")`. -/
def rstripSlashes (s : String) : String :=
  ⟨(s.data.reverse.dropWhile (fun c => c == '/')).reverse⟩

def tavilyWarn : String :=
  "TAVILY_API_KEY not found in environment. Tavily MCP may fail to connect."

def tinyfishWarn : String :=
  "TINYFISH_API_KEY not found in environment. TinyFish MCP may fail to connect."

/-- `DEFAULT_MCP_SERVERS` from config.py. -/
def DEFAULT_MCP_SERVERS : Catalog :=
  [("kiwi-com-flight-search",
     [("url", .str "https://mcp.kiwi.com"), ("transport", .str "sse")]),
   ("tinyfish",
     [("url", .str "https://agent.tinyfish.ai/mcp"), ("transport", .str "sse")]),
   ("web-fetch",
     [("url", .str "https://remote.mcpservers.org/fetch/mcp"),
      ("transport", .str "http")]),
   ("tavily",
     [("url", .str "https://mcp.tavily.com/mcp"), ("transport", .str "sse")])]

/-- `_resolve_server_config(server_name, raw)` at the level of dict contents
(`out = dict(raw)` is a copy, so the result starts from `raw`'s contents;
object identity is treated in the heap model below).  The returned list of
strings records the `logging.warning` events.  `Except.error` models the
exceptions Python would raise on type-confused descriptors (`rstrip` on a
dict, item assignment on a string). -/
def resolve_server_config (env : EnvMap) (serverName : String) (raw : Fields) :
    Except String (Fields × List String) :=
  if serverName = "tavily" then
    match truthyEnv env "TAVILY_API_KEY" with
    | none => .ok (raw, [tavilyWarn])
    | some key =>
      match
        (match assocGet raw "url" with
         | some (.str u) => Except.ok u
         | some (.dict d) =>
           if d.isEmpty then Except.ok ""
           else Except.error "AttributeError: dict object has no attribute rstrip"
         | none => Except.ok "")
      with
      | .error e => .error e
      | .ok u =>
        let base := rstripSlashes u
        let sep := if base.contains '?' then "&" else "?"
        .ok (assocSet raw "url" (.str (base ++ sep ++ "tavilyApiKey=" ++ key)), [])
  else if serverName = "tinyfish" then
    match truthyEnv env "TINYFISH_API_KEY" with
    | none => .ok (raw, [tinyfishWarn])
    | some key =>
      match assocGet raw "headers" with
      | some (.str _) =>
        .error "TypeError: str object does not support item assignment"
      | some (.dict h) =>
        .ok (assocSet raw "headers" (.dict (assocSet h "X-API-Key" (.str key))), [])
      | none =>
        .ok (assocSet raw "headers" (.dict (assocSet [] "X-API-Key" (.str key))), [])
  else
    .ok (raw, [])

/-- The override merge loop of `get_mcp_servers_config`:
`base[k] = dict(base.get(k, {})); base[k].update(v)` for each override item. -/
def mergeOverride : Catalog → Catalog → Catalog
  | base, [] => base
  | base, p :: rest =>
    mergeOverride (assocSet base p.1 (dictUpdate ((assocGet base p.1).getD []) p.2)) rest

/-- `{k: _resolve_server_config(k, v) for k, v in base.items()}`, collecting
the warning events; the first raised exception aborts the comprehension. -/
def resolveCatalog (env : EnvMap) : Catalog → Except String (Catalog × List String)
  | [] => .ok ([], [])
  | (k, v) :: rest =>
    match resolve_server_config env k v with
    | .error e => .error e
    | .ok (f, w) =>
      match resolveCatalog env rest with
      | .error e => .error e
      | .ok (c, ws) => .ok ((k, f) :: c, w ++ ws)

/-- `get_mcp_servers_config(override)`: copy the defaults, merge the override
(`if override:` skips a `None` or empty override), then resolve every entry. -/
def get_mcp_servers_config (env : EnvMap) (override : Option Catalog) :
    Except String (Catalog × List String) :=
  let merged :=
    match override with
    | none => DEFAULT_MCP_SERVERS
    | some ov => if ov.isEmpty then DEFAULT_MCP_SERVERS else mergeOverride DEFAULT_MCP_SERVERS ov
  resolveCatalog env merged

/-- C6 — When the expected environment variable is absent (or empty), the
env-dependent servers `tavily` and `tinyfish` resolve without raising: the
descriptor is returned unchanged (degraded, still in the catalog) and the
warning-level log event is emitted; whole-catalog resolution of the default
catalog likewise succeeds with both warnings. -/
theorem resolve_missing_env_degrades (env : EnvMap) (rawTavily rawTinyfish : Fields)
    (h1 : truthyEnv env "TAVILY_API_KEY" = none)
    (h2 : truthyEnv env "TINYFISH_API_KEY" = none) :
    resolve_server_config env "tavily" rawTavily = .ok (rawTavily, [tavilyWarn]) ∧
    resolve_server_config env "tinyfish" rawTinyfish = .ok (rawTinyfish, [tinyfishWarn]) ∧
    get_mcp_servers_config env none
        = .ok (DEFAULT_MCP_SERVERS, [tinyfishWarn, tavilyWarn]) := by
  refine ⟨?_, ?_, ?_⟩
  · simp [resolve_server_config, h1]
  · simp [resolve_server_config, h2]
  · simp [get_mcp_servers_config, resolveCatalog, resolve_server_config,
      DEFAULT_MCP_SERVERS, h1, h2]

/-- Witness for C6 with a fully unset environment. -/
theorem resolve_missing_env_degrades_witness :
    get_mcp_servers_config (fun _ => none) none
        = .ok (DEFAULT_MCP_SERVERS, [tinyfishWarn, tavilyWarn]) :=
  (resolve_missing_env_degrades (fun _ => none) [] [] rfl rfl).2.2

/-- C10 — Environment resolution touches only the two hard-coded names
`tavily` and `tinyfish`: for every other server name the descriptor comes
back as an unchanged copy with no warning, and the result does not depend on
the environment at all. -/
theorem resolve_other_servers_untouched (name : String) (raw : Fields)
    (env env2 : EnvMap) (h1 : name ≠ "tavily") (h2 : name ≠ "tinyfish") :
    resolve_server_config env name raw = .ok (raw, []) ∧
    resolve_server_config env name raw = resolve_server_config env2 name raw := by
  constructor <;> simp [resolve_server_config, h1, h2]

/-- Witness for C10 on the `web-fetch` descriptor with secrets present in
the environment. -/
theorem resolve_other_servers_untouched_witness :
    resolve_server_config (fun _ => some "secret") "web-fetch"
        [("url", Val.str "https://remote.mcpservers.org/fetch/mcp")]
      = .ok ([("url", Val.str "https://remote.mcpservers.org/fetch/mcp")], []) :=
  (resolve_other_servers_untouched "web-fetch"
    [("url", Val.str "https://remote.mcpservers.org/fetch/mcp")]
    (fun _ => some "secret") (fun _ => none)
    (by decide) (by decide)).1

/-- Names of the default servers. -/
def defaultNames : List String := DEFAULT_MCP_SERVERS.map Prod.fst

/-- Does every descriptor of the catalog carry a `transport` entry? -/
def allCarryTransport (c : Catalog) : Bool :=
  c.all (fun p => assocHas p.2 "transport")

/-- A fully unset environment. -/
def env0 : EnvMap := fun _ => none

/-- A caller-supplied override adding a server without a `transport` field. -/
def ovNoTransport : Catalog :=
  [("extra-server", [("url", Val.str "https://x.example.com")])]

/-- C9 counterexample — a catalog produced with a caller-supplied override
can contain a descriptor with no `transport` value: the merge
`base[k] = dict(base.get(k, {})); base[k].update(v)` builds a brand-new
server from the override fields alone and resolution leaves it unchanged. -/
theorem catalog_transport_counterexample :
    (get_mcp_servers_config env0 (some ovNoTransport)).map
        (fun r => allCarryTransport r.1) = .ok false := by
  rfl

lemma beq_key_eq {k q : String} (h : (k == q) = true) : k = q := by
  simpa using h

lemma assocHas_map_set {α : Type} (d : List (String × α)) (k : String) (v : α)
    (q : String) :
    assocHas (d.map (fun p => if p.1 == k then (k, v) else p)) q = assocHas d q := by
  induction d with
  | nil => rfl
  | cons p rest ih =>
    simp only [assocHas, List.map_cons, List.any_cons] at ih ⊢
    rw [ih]
    by_cases hpk : (p.1 == k) = true
    · have hk : p.1 = k := beq_key_eq hpk
      rw [if_pos hpk, hk]
    · rw [if_neg hpk]

lemma assocHas_set_mono {α : Type} (d : List (String × α)) (k : String) (v : α)
    (q : String) (h : assocHas d q = true) :
    assocHas (assocSet d k v) q = true := by
  unfold assocSet
  by_cases hk : assocHas d k
  · simp only [hk, if_true]
    rw [assocHas_map_set]
    exact h
  · simp only [hk, if_false]
    simp [assocHas, List.any_append]
    left
    simpa [assocHas] using h

lemma dictUpdate_has_mono (d upd : Fields) (q : String)
    (h : assocHas d q = true) : assocHas (dictUpdate d upd) q = true := by
  induction upd generalizing d with
  | nil => exact h
  | cons p rest ih => exact ih _ (assocHas_set_mono d p.1 p.2 q h)

lemma mem_assocSet {α : Type} (d : List (String × α)) (k : String) (v : α)
    (p : String × α) (hp : p ∈ assocSet d k v) : p = (k, v) ∨ p ∈ d := by
  unfold assocSet at hp
  by_cases hk : assocHas d k
  · rw [if_pos hk] at hp
    obtain ⟨q, hq, hfq⟩ := List.mem_map.mp hp
    by_cases hqk : (q.1 == k) = true
    · left
      rw [← hfq]
      simp [hqk]
    · right
      rw [← hfq]
      simp [hqk]
      exact hq
  · rw [if_neg hk] at hp
    rcases List.mem_append.mp hp with h | h
    · exact Or.inr h
    · exact Or.inl (List.mem_singleton.mp h)

lemma assocHas_iff_get {α : Type} (d : List (String × α)) (k : String) :
    assocHas d k = true ↔ ∃ v, assocGet d k = some v := by
  unfold assocHas assocGet
  rw [List.any_eq_true]
  constructor
  · rintro ⟨p, hp, hpk⟩
    have : (d.find? (fun p => p.1 == k)).isSome := by
      rw [List.find?_isSome]
      exact ⟨p, hp, hpk⟩
    obtain ⟨q, hq⟩ := Option.isSome_iff_exists.mp this
    exact ⟨q.2, by simp [hq]⟩
  · rintro ⟨v, hv⟩
    cases hf : d.find? (fun p => p.1 == k) with
    | none => simp [hf] at hv
    | some q =>
      refine ⟨q, List.mem_of_find?_eq_some hf, ?_⟩
      simpa using List.find?_some hf

lemma assocGet_mem {α : Type} (d : List (String × α)) (k : String) (v : α)
    (h : assocGet d k = some v) : (k, v) ∈ d := by
  unfold assocGet at h
  cases hf : d.find? (fun p => p.1 == k) with
  | none => simp [hf] at h
  | some q =>
    rw [hf] at h
    have h2 : q.2 = v := by simpa using h
    have hqk : q.1 = k := by simpa using List.find?_some hf
    have hq : q = (k, v) := Prod.ext_iff.mpr ⟨hqk, h2⟩
    exact hq ▸ List.mem_of_find?_eq_some hf

/-- Merging any override preserves two facts: every descriptor under a
default server name still carries `transport`, and every default name is
still a key of the catalog. -/
lemma mergeOverride_invariant (ov : Catalog) (base : Catalog)
    (hb1 : ∀ p ∈ base, p.1 ∈ defaultNames → assocHas p.2 "transport" = true)
    (hb2 : ∀ n ∈ defaultNames, assocHas base n = true) :
    (∀ p ∈ mergeOverride base ov, p.1 ∈ defaultNames →
        assocHas p.2 "transport" = true) ∧
    (∀ n ∈ defaultNames, assocHas (mergeOverride base ov) n = true) := by
  induction ov generalizing base with
  | nil => exact ⟨hb1, hb2⟩
  | cons p rest ih =>
    apply ih
    · intro q hq hqd
      rcases mem_assocSet _ _ _ _ hq with rfl | hqb
      · simp only at hqd
        have hhas := hb2 p.1 hqd
        obtain ⟨f0, hf0⟩ := (assocHas_iff_get base p.1).mp hhas
        have ht := hb1 (p.1, f0) (assocGet_mem base p.1 f0 hf0) hqd
        simp only [hf0, Option.getD_some]
        exact dictUpdate_has_mono f0 p.2 "transport" ht
      · exact hb1 q hqb hqd
    · intro n hn
      exact assocHas_set_mono _ _ _ _ (hb2 n hn)

/-- Resolution never removes a field: if the raw descriptor has key `q`,
the resolved descriptor still has it (resolution only rewrites `url` or
`headers`). -/
lemma resolve_preserves_has (env : EnvMap) (name : String) (raw : Fields)
    (q : String) (h : assocHas raw q = true) (f : Fields) (w : List String)
    (hres : resolve_server_config env name raw = .ok (f, w)) :
    assocHas f q = true := by
  unfold resolve_server_config at hres
  by_cases h1 : name = "tavily"
  · simp only [h1, if_true] at hres
    split at hres
    · simp only [Except.ok.injEq, Prod.mk.injEq] at hres
      exact hres.1 ▸ h
    · split at hres
      · exact absurd hres (by simp)
      · simp only [Except.ok.injEq, Prod.mk.injEq] at hres
        exact hres.1 ▸ assocHas_set_mono raw "url" _ q h
  · simp only [h1, if_false] at hres
    by_cases h2 : name = "tinyfish"
    · simp only [h2, if_true] at hres
      split at hres
      · simp only [Except.ok.injEq, Prod.mk.injEq] at hres
        exact hres.1 ▸ h
      · split at hres
        · exact absurd hres (by simp)
        · simp only [Except.ok.injEq, Prod.mk.injEq] at hres
          exact hres.1 ▸ assocHas_set_mono raw "headers" _ q h
        · simp only [Except.ok.injEq, Prod.mk.injEq] at hres
          exact hres.1 ▸ assocHas_set_mono raw "headers" _ q h
    · simp only [h2, if_false, Except.ok.injEq, Prod.mk.injEq] at hres
      exact hres.1 ▸ h

/-- Each entry of a resolved catalog comes from an entry of the merged base
with the same name, via a successful `resolve_server_config`. -/
lemma resolveCatalog_entries (env : EnvMap) :
    ∀ (base cat : Catalog) (ws : List String),
      resolveCatalog env base = .ok (cat, ws) →
      ∀ p ∈ cat, ∃ q ∈ base, q.1 = p.1 ∧
        ∃ w, resolve_server_config env q.1 q.2 = .ok (p.2, w) := by
  intro base
  induction base with
  | nil =>
    intro cat ws hres p hp
    simp only [resolveCatalog, Except.ok.injEq, Prod.mk.injEq] at hres
    rw [← hres.1] at hp
    exact absurd hp (by simp)
  | cons e rest ih =>
    intro cat ws hres p hp
    obtain ⟨k, v⟩ := e
    simp only [resolveCatalog] at hres
    split at hres
    · exact absurd hres (by simp)
    · rename_i f w hfw
      split at hres
      · exact absurd hres (by simp)
      · rename_i c ws2 hrest
        simp only [Except.ok.injEq, Prod.mk.injEq] at hres
        rw [← hres.1] at hp
        rcases List.mem_cons.mp hp with rfl | hpc
        · exact ⟨(k, v), List.mem_cons_self _ _, rfl, w, hfw⟩
        · obtain ⟨q, hq, hq1, w2, hw2⟩ := ih c ws2 hrest p hpc
          exact ⟨q, List.mem_cons_of_mem _ hq, hq1, w2, hw2⟩

/-- C9 (amended) — In every successfully produced catalog, every descriptor
whose server name is one of the default servers carries a `transport` value;
(the counterexample shows a caller-added server need not). -/
theorem default_named_descriptors_carry_transport (env : EnvMap)
    (override : Option Catalog) (cat : Catalog) (ws : List String)
    (h : get_mcp_servers_config env override = .ok (cat, ws)) :
    ∀ p ∈ cat, p.1 ∈ defaultNames → assocHas p.2 "transport" = true := by
  intro p hp hpd
  have hbase1 : ∀ q ∈ DEFAULT_MCP_SERVERS, q.1 ∈ defaultNames →
      assocHas q.2 "transport" = true := by decide
  have hbase2 : ∀ n ∈ defaultNames, assocHas DEFAULT_MCP_SERVERS n = true := by decide
  have hmerged : ∃ merged : Catalog,
      resolveCatalog env merged = .ok (cat, ws) ∧
      (∀ q ∈ merged, q.1 ∈ defaultNames → assocHas q.2 "transport" = true) := by
    unfold get_mcp_servers_config at h
    cases override with
    | none => exact ⟨DEFAULT_MCP_SERVERS, h, hbase1⟩
    | some ov =>
      by_cases hov : ov.isEmpty
      · simp only [hov, if_true] at h
        exact ⟨DEFAULT_MCP_SERVERS, h, hbase1⟩
      · simp only [hov, if_false] at h
        exact ⟨mergeOverride DEFAULT_MCP_SERVERS ov, h,
          (mergeOverride_invariant ov DEFAULT_MCP_SERVERS hbase1 hbase2).1⟩
  obtain ⟨merged, hres, hinv⟩ := hmerged
  obtain ⟨q, hq, hq1, w, hw⟩ := resolveCatalog_entries env merged cat ws hres p hp
  have ht := hinv q hq (hq1 ▸ hpd)
  have := resolve_preserves_has env q.1 q.2 "transport" ht p.2 w hw
  exact this

/-- Witness for the amended C9 on the default catalog in an empty
environment. -/
theorem default_named_descriptors_carry_transport_witness :
    assocHas [("url", Val.str "https://mcp.kiwi.com"),
              ("transport", Val.str "sse")] "transport" = true :=
  default_named_descriptors_carry_transport env0 none DEFAULT_MCP_SERVERS
    [tinyfishWarn, tavilyWarn] rfl
    ("kiwi-com-flight-search",
      [("url", Val.str "https://mcp.kiwi.com"), ("transport", Val.str "sse")])
    (List.mem_cons_self _ _) (by decide)

/-! ### Catalog resolution: heap model with object identity

`dict(raw)` in Python is a SHALLOW copy: nested dicts are copied by
reference.  To settle the mutation claim the same functions are modelled
over an explicit heap, where each dict lives at an address and nested dicts
are `ref` values. -/

inductive HVal where
  | str (s : String)
  | ref (a : Nat)
  deriving DecidableEq, Repr

abbrev HDict := List (String × HVal)

/-- Addressable store of dict objects.  `next` is the next fresh address. -/
structure Heap where
  next : Nat
  mem : List (Nat × HDict)
  deriving Repr

def memGet (m : List (Nat × HDict)) (a : Nat) : Option HDict :=
  (m.find? (fun p => p.1 == a)).map (fun p => p.2)

def memSet (m : List (Nat × HDict)) (a : Nat) (d : HDict) : List (Nat × HDict) :=
  if m.any (fun p => p.1 == a) then m.map (fun p => if p.1 == a then (a, d) else p)
  else m ++ [(a, d)]

def Heap.read (h : Heap) (a : Nat) : HDict := (memGet h.mem a).getD []

def Heap.write (h : Heap) (a : Nat) (d : HDict) : Heap := ⟨h.next, memSet h.mem a d⟩

def Heap.alloc (h : Heap) (d : HDict) : Nat × Heap :=
  (h.next, ⟨h.next + 1, h.mem ++ [(h.next, d)]⟩)

/-- `obj[k] = v` on the dict object at address `a`. -/
def hSetItem (h : Heap) (a : Nat) (k : String) (v : HVal) : Heap :=
  h.write a (assocSet (h.read a) k v)

/-- `_resolve_server_config(server_name, raw)` over the heap:
`out = dict(raw)` allocates a shallow copy, so `out["headers"]` aliases the
caller's nested dict, and `out["headers"]["X-API-Key"] = key` mutates that
shared object in place. -/
def hResolveServer (env : EnvMap) (serverName : String) (rawA : Nat) (h0 : Heap) :
    Except String (Nat × Heap × List String) :=
  let p := h0.alloc (h0.read rawA)
  let outA := p.1
  let h := p.2
  if serverName = "tavily" then
    match truthyEnv env "TAVILY_API_KEY" with
    | none => .ok (outA, h, [tavilyWarn])
    | some key =>
      match
        (match assocGet (h.read rawA) "url" with
         | some (.str u) => Except.ok u
         | some (.ref a) =>
           if (h.read a).isEmpty then Except.ok ""
           else Except.error "AttributeError: dict object has no attribute rstrip"
         | none => Except.ok "")
      with
      | .error e => .error e
      | .ok u =>
        let base := rstripSlashes u
        let sep := if base.contains '?' then "&" else "?"
        .ok (outA, hSetItem h outA "url" (.str (base ++ sep ++ "tavilyApiKey=" ++ key)), [])
  else if serverName = "tinyfish" then
    match truthyEnv env "TINYFISH_API_KEY" with
    | none => .ok (outA, h, [tinyfishWarn])
    | some key =>
      match assocGet (h.read outA) "headers" with
      | some (.str _) =>
        .error "TypeError: str object does not support item assignment"
      | some (.ref ha) =>
        let h1 := hSetItem h outA "headers" (.ref ha)
        let h2 := h1.write ha (assocSet (h1.read ha) "X-API-Key" (.str key))
        .ok (outA, h2, [])
      | none =>
        let q := h.alloc []
        let h1 := hSetItem q.2 outA "headers" (.ref q.1)
        let h2 := h1.write q.1 (assocSet (h1.read q.1) "X-API-Key" (.str key))
        .ok (outA, h2, [])
  else
    .ok (outA, h, [])

/-- `{k: dict(v) for k, v in DEFAULT_MCP_SERVERS.items()}`: allocate a
shallow copy of each server dict. -/
def hCopyEntries : Heap → HDict → Except String (HDict × Heap)
  | h, [] => .ok ([], h)
  | h, (k, v) :: rest =>
    match v with
    | .ref a =>
      let p := h.alloc (h.read a)
      match hCopyEntries p.2 rest with
      | .error e => .error e
      | .ok (es, h2) => .ok ((k, .ref p.1) :: es, h2)
    | .str _ => .error "TypeError: str is not a mapping"

/-- The override merge loop over the heap:
`base[k] = dict(base.get(k, {})); base[k].update(v)` — `update` copies the
override's values by reference, so a nested override dict is aliased into
the merged catalog. -/
def hMergeSteps (baseA : Nat) : Heap → HDict → Except String Heap
  | h, [] => .ok h
  | h, (k, v) :: rest =>
    match v with
    | .str _ => .error "TypeError: update requires a mapping"
    | .ref va =>
      match
        (match assocGet (h.read baseA) k with
         | some (.ref ba) => Except.ok (h.read ba)
         | some (.str _) => Except.error "TypeError: str is not a mapping"
         | none => Except.ok [])
      with
      | .error e => .error e
      | .ok c =>
        let p := h.alloc c
        let h1 := hSetItem p.2 baseA k (.ref p.1)
        let h2 := (h1.read va).foldl (fun hh q => hSetItem hh p.1 q.1 q.2) h1
        hMergeSteps baseA h2 rest

/-- `{k: _resolve_server_config(k, v) for k, v in base.items()}` over the heap. -/
def hResolveEntries (env : EnvMap) : Heap → HDict → Except String (HDict × Heap × List String)
  | h, [] => .ok ([], h, [])
  | h, (k, v) :: rest =>
    match v with
    | .str _ => .error "TypeError: str is not a mapping"
    | .ref a =>
      match hResolveServer env k a h with
      | .error e => .error e
      | .ok (fa, h1, w) =>
        match hResolveEntries env h1 rest with
        | .error e => .error e
        | .ok (es, h2, ws) => .ok ((k, .ref fa) :: es, h2, w ++ ws)

/-- `get_mcp_servers_config(override)` over the heap: copy the defaults,
merge the override in place into the copy, resolve every entry, return the
address of the result dict. -/
def hGetConfig (env : EnvMap) (defaultsA : Nat) (override : Option Nat) (h : Heap) :
    Except String (Nat × Heap × List String) :=
  match hCopyEntries h (h.read defaultsA) with
  | .error e => .error e
  | .ok (baseEntries, h1) =>
    let p := h1.alloc baseEntries
    match
      (match override with
       | none => Except.ok p.2
       | some ovA =>
         if (p.2.read ovA).isEmpty then Except.ok p.2
         else hMergeSteps p.1 p.2 (p.2.read ovA))
    with
    | .error e => .error e
    | .ok h3 =>
      match hResolveEntries env h3 (h3.read p.1) with
      | .error e => .error e
      | .ok (es, h4, ws) =>
        let q := h4.alloc es
        .ok (q.1, q.2, ws)

/-- Initial heap:
addresses 0-3 hold the four default server dicts, address 4 the
`DEFAULT_MCP_SERVERS` dict itself; address 5 holds the caller's nested
`headers` dict (empty), address 6 the caller's `tinyfish` override entry,
address 7 the caller's override dict `{"tinyfish": {"headers": {}}}`. -/
def heap0 : Heap :=
  ⟨8, [(0, [("url", .str "https://mcp.kiwi.com"), ("transport", .str "sse")]),
       (1, [("url", .str "https://agent.tinyfish.ai/mcp"), ("transport", .str "sse")]),
       (2, [("url", .str "https://remote.mcpservers.org/fetch/mcp"),
            ("transport", .str "http")]),
       (3, [("url", .str "https://mcp.tavily.com/mcp"), ("transport", .str "sse")]),
       (4, [("kiwi-com-flight-search", .ref 0), ("tinyfish", .ref 1),
            ("web-fetch", .ref 2), ("tavily", .ref 3)]),
       (5, []),
       (6, [("headers", .ref 5)]),
       (7, [("tinyfish", .ref 6)])]⟩

/-- Environment with only `TINYFISH_API_KEY` set. -/
def envTinyfishKey : EnvMap :=
  fun v => if v = "TINYFISH_API_KEY" then some "secret-key" else none

/-- C7 — The code contradicts the claim: `get_mcp_servers_config` CAN mutate
a caller-supplied override.  With override `{"tinyfish": {"headers": {}}}`
and `TINYFISH_API_KEY` set, the caller's nested `headers` dict (address 5),
empty before the call, holds `{"X-API-Key": "secret-key"}` after it: the
merge aliases the override's nested dict into the merged catalog, the
shallow `dict(raw)` copy keeps that alias, and resolution assigns into it
in place. -/
theorem get_config_mutates_caller_override :
    heap0.read 5 = [] ∧
    (hGetConfig envTinyfishKey 4 (some 7) heap0).map (fun r => r.2.1.read 5)
        = .ok [("X-API-Key", HVal.str "secret-key")] :=
  ⟨rfl, rfl⟩

end AgenticFramework
